import Mathlib

/-
Verification development for node-filesaver (src/Filesaver.js).

Paths and other JavaScript strings are embedded as lists of characters
(`Str`).  The filesystem is embedded as an explicit state (`FS`): a list of
directory paths plus an association list from file paths to abstract content
identifiers (`Nat`), since only identity of contents matters to the claims.
Asynchronous callback-based code is embedded synchronously: every operation
returns the updated state together with the list of callback invocations it
performed, in order.  The external collaborators (fs.existsSync, fs.exists,
fs.rename, mkdirp, path.resolve) are embedded as state transformers on `FS`;
mkdirp is modelled as creating the requested directory (ancestor directories
are not tracked separately, no claim mentions them), and path.resolve as a
segment join that lets an absolute second argument win (drive-letter and
dot-segment normalisation is not modelled, no claim depends on it).
-/

/-- JavaScript strings, embedded as lists of characters. -/
abbrev Str := List Char

/-- Association-list lookup (embeds JavaScript object property read). -/
def lookupA {β : Type} (k : Str) : List (Str × β) → Option β
  | [] => none
  | (k2, v) :: t => if k = k2 then some v else lookupA k t

/-- Remove every binding of a key (helper for property assignment). -/
def eraseA {β : Type} (k : Str) : List (Str × β) → List (Str × β)
  | [] => []
  | (k2, v) :: t => if k = k2 then eraseA k t else (k2, v) :: eraseA k t

/-- Association-list overwrite (embeds JavaScript object property write). -/
def setA {β : Type} (k : Str) (v : β) (l : List (Str × β)) : List (Str × β) :=
  (k, v) :: eraseA k l

/-- Embeds JavaScript String.prototype.split(sep): returns the first segment
and the list of remaining segments (the full segment list is always
nonempty, so it is returned as head plus tail). -/
def jsSplit (sep : Char) : Str → Str × List Str
  | [] => ([], [])
  | c :: cs =>
      let r := jsSplit sep cs
      if c = sep then ([], r.1 :: r.2) else (c :: r.1, r.2)

/-- Last element of a list with a fallback (embeds Array.prototype.pop on a
nonempty array given as head plus tail). -/
def getLastD : List Str → Str → Str
  | [], d => d
  | a :: t, _ => getLastD t a

/-- Embeds route.split(sep).pop(): the last segment of a split. -/
def lastSeg (sep : Char) (s : Str) : Str :=
  getLastD (jsSplit sep s).2 (jsSplit sep s).1

/-- Substring after the last occurrence of sep (whole string when sep is
absent); an independent specification-side description of lastSeg. -/
def afterLast (sep : Char) : Str → Str
  | [] => []
  | c :: cs => if sep ∈ cs then afterLast sep cs else if c = sep then cs else c :: cs

/-- Modelled from the spec: the per-character sanitisation rule of
tools.safename (tools.js is not among the sources).  Section 4.1: keep
characters safe across common filesystems (alphanumerics, hyphen,
underscore) and replace everything else, including path separators. -/
def safeChar (c : Char) : Char :=
  if c.isAlphanum || c == '-' || c == '_' then c else '_'

/-- Modelled from the spec: tools.safename (tools.js is not among the
sources), per section 4.1 of the specification: a total, deterministic,
side-effect-free map applying safeChar to every character. -/
def safename (s : Str) : Str := s.map safeChar

/-- Decimal rendering of a counter value (digit characters, most significant
first), used to build collision-avoidance suffixes. -/
def natChars (n : Nat) : Str := ((Nat.digits 10 n).reverse).map Nat.digitChar

/-- Split a string at the last occurrence of sep: the first component keeps
the separator at its end, the second is the remainder; when sep is absent
the first component is empty. -/
def beforeAfterLast (sep : Char) : Str → Str × Str
  | [] => ([], [])
  | c :: cs =>
      if sep ∈ cs then (c :: (beforeAfterLast sep cs).1, (beforeAfterLast sep cs).2)
      else if c = sep then ([c], cs)
      else ([], c :: cs)

/-- Split a filename into stem and optional extension at the last dot; a
name with no dot has no extension. -/
def splitExt (nm : Str) : Str × Option Str :=
  if '.' ∈ nm then ((beforeAfterLast '.' nm).1.dropLast, some (beforeAfterLast '.' nm).2)
  else (nm, none)

/-- Rebuild the extension part: nothing for a missing extension (no trailing
dot inserted), otherwise a dot followed by the extension. -/
def extSuffix : Option Str → Str
  | none => []
  | some e => '.' :: e

/-- Modelled from the spec: the candidate path directory/basename_N.extension
tried by tools.finalName for counter value N (tools.js is not among the
sources), per section 4.3: the counter is always appended fresh to the
verbatim basename, an existing _N suffix is never parsed or collapsed. -/
def mkCand (route : Str) (n : Nat) : Str :=
  (beforeAfterLast '/' route).1 ++ (splitExt (beforeAfterLast '/' route).2).1
    ++ '_' :: (natChars n ++ extSuffix (splitExt (beforeAfterLast '/' route).2).2)

/-- Linear search for the first counter value whose candidate is not among
the existing paths, with explicit fuel. -/
def searchFree {α : Type} [DecidableEq α] (ex : List α) (mk : Nat → α) : Nat → Nat → Nat
  | s, 0 => s
  | s, f + 1 => if mk s ∈ ex then searchFree ex mk (s + 1) f else s

/-- Filesystem state: directory paths and an association from file paths to
abstract content identifiers. -/
structure FS where
  dirs : List Str
  files : List (Str × Nat)
deriving DecidableEq

/-- Paths of the files of a filesystem state. -/
def filesKeys (fsx : FS) : List Str := fsx.files.map Prod.fst

/-- Every existing path of the filesystem, directory or file. -/
def exList (fsx : FS) : List Str := fsx.dirs ++ filesKeys fsx

/-- Embeds fs.existsSync / fs.exists: an entry of either kind is present at
the path. -/
def existsSync (fsx : FS) (p : Str) : Bool := decide (p ∈ exList fsx)

/-- Embeds the mkdirp collaborator: the requested directory exists
afterwards.  Ancestor directories are not tracked (no claim mentions
them); existing files are never removed. -/
def mkdirp (p : Str) (fsx : FS) : FS := { fsx with dirs := p :: fsx.dirs }

/-- Modelled from the spec: tools.finalName (tools.js is not among the
sources), per section 4.3 of the specification: return the route unchanged
when nothing exists there, otherwise try directory/basename_N.extension for
N = 1, 2, ... until a non-existing path is found.  The fuel is one more
than the number of existing paths, which always suffices. -/
def finalName (fsx : FS) (route : Str) : Str :=
  if existsSync fsx route then
    mkCand route (searchFree (exList fsx) (mkCand route) 1 ((exList fsx).length + 1))
  else route

/-- Success payload passed to callbacks, from the move helper. -/
structure Payload where
  filename : Str
  filepath : Str
deriving DecidableEq

/-- Value delivered to a put/add callback: either the single error argument
or the success payload. -/
inductive Res
  | err (msg : Str)
  | ok (data : Payload)
deriving DecidableEq

/-- Which callback value ends up being invoked after the argument shuffle in
checker: the caller-supplied function, the internally substituted no-op, or
the undefined value (invoking which throws in JavaScript). -/
inductive Cb
  | supplied
  | noop
  | undef
deriving DecidableEq

/-- Shape of a put/add call site: both trailing arguments are optional and
the third position may hold either the destination name or the callback. -/
inductive CallShape
  | two
  | withName (n : Str)
  | withCb
  | withNameCb (n : Str)
deriving DecidableEq

/-- Error value produced by fs.rename when the source is missing. -/
def renameErrMsg : Str := "ENOENT".data

/-- Embeds checker's message for an unregistered folder alias (the
specification calls this error kind UnknownFolderError). -/
def invalidFolderMsg : Str := "invalid folder".data

/-- Embeds checker's message for a bad folder/origin argument (the
specification calls this error kind InvalidArgumentError). -/
def notValidMsg : Str := "folder or origin not valid".data

/-- Embeds the move helper: fs.rename plus construction of the success
payload, whose filename is newPath.split('/').pop(). -/
def move (oldPath newPath : Str) (fsx : FS) : FS × Res :=
  match lookupA oldPath fsx.files with
  | none => (fsx, Res.err renameErrMsg)
  | some c => ({ fsx with files := setA newPath c (eraseA oldPath fsx.files) },
               Res.ok ⟨lastSeg '/' newPath, newPath⟩)

/-- Embeds checkSafeName from Filesaver.js, faithfully including the
JavaScript evaluation of [basename, ext].join('.') where ext is the array
of remaining dot-separated parts: the array element stringifies by joining
with commas, and the single joining dot is always inserted. -/
def checkSafeName (safe : Bool) (route : Str) : Str :=
  if safe then
    let sp := jsSplit '/' route
    let name := getLastD sp.2 sp.1
    let rest := (sp.1 :: sp.2).dropLast
    let se := jsSplit '.' name
    let name2 := safename se.1 ++ '.' :: List.intercalate ([','] : Str) se.2
    List.intercalate (['/'] : Str) (rest ++ [name2])
  else route

/-- Embeds path.resolve(dir, name) for the cases the program exercises: an
absolute name wins, otherwise the segments are joined with a slash. -/
def pathResolve (dir name : Str) : Str :=
  if name.head? = some '/' then name else dir ++ '/' :: name

/-- Embeds the argument shuffle at the top of checker: which destination
name and which callback value are in effect for each call shape.  A falsy
third argument (absent, or the empty string) routes through the branch that
substitutes the internal no-op callback, even when a real callback was
supplied in fourth position. -/
def shuffle (oldPath : Str) : CallShape → Str × Cb
  | CallShape.withCb => (lastSeg '/' oldPath, Cb.supplied)
  | CallShape.two => (lastSeg '/' oldPath, Cb.noop)
  | CallShape.withName n => if n = [] then (lastSeg '/' oldPath, Cb.noop) else (n, Cb.undef)
  | CallShape.withNameCb n => if n = [] then (lastSeg '/' oldPath, Cb.noop) else (n, Cb.supplied)

/-- Saver instance state: the alias table, the safenames option, and the
filesystem the instance acts on. -/
structure SaverState where
  folders : List (Str × Str)
  safenames : Bool
  fsys : FS
deriving DecidableEq

/-- Embeds checker from Filesaver.js: argument shuffle, argument validation,
alias lookup, target computation.  The alias guard is the JavaScript
truthiness test of this.folders[folder], so an absent alias and an alias
mapped to the empty string (falsy) both take the invalid-folder path.
Left: computed target path and effective callback; right: effective
callback and the error message it receives. -/
def checker (st : SaverState) (fname oldPath : Str) (sh : CallShape) :
    (Str × Cb) ⊕ (Cb × Str) :=
  let np := (shuffle oldPath sh).1
  let cb := (shuffle oldPath sh).2
  if fname ≠ [] ∧ oldPath ≠ [] ∧ existsSync st.fsys oldPath = true then
    match lookupA fname st.folders with
    | some dir =>
        if dir = [] then Sum.inr (cb, invalidFolderMsg)
        else Sum.inl (checkSafeName st.safenames (pathResolve dir np), cb)
    | none => Sum.inr (cb, invalidFolderMsg)
  else Sum.inr (cb, notValidMsg)

/-- Embeds the Filesaver constructor: store the folders option and the
safenames option, then create each configured directory that has no
existing entry. -/
def initFolders : List (Str × Str) → FS → FS
  | [], fsx => fsx
  | pr :: t, fsx =>
      initFolders t (if existsSync fsx pr.2 = true then fsx else mkdirp pr.2 fsx)

/-- Embeds new Filesaver({folders, safenames}) acting on filesystem fsx. -/
def Filesaver (optFolders : List (Str × Str)) (optSafenames : Bool) (fsx : FS) : SaverState :=
  { folders := optFolders, safenames := optSafenames, fsys := initFolders optFolders fsx }

/-- Embeds Filesaver.prototype.folder: create the directory when no entry
exists at the path, store the alias unconditionally, fire the optional
callback; the returned flag records whether a callback was invoked. -/
def folder (st : SaverState) (name folderPath : Str) (cbSupplied : Bool) :
    SaverState × Bool :=
  let fs2 := if existsSync st.fsys folderPath = true then st.fsys else mkdirp folderPath st.fsys
  ({ st with folders := setA name folderPath st.folders, fsys := fs2 }, cbSupplied)

/-- Embeds Filesaver.prototype.put: validate through checker, then move the
source to the computed target directly.  The result lists every callback
invocation the call performs. -/
def put (st : SaverState) (fname oldPath : Str) (sh : CallShape) :
    SaverState × List (Cb × Res) :=
  match checker st fname oldPath sh with
  | Sum.inr (cb, msg) => (st, [(cb, Res.err msg)])
  | Sum.inl (np, cb) =>
      let mr := move oldPath np st.fsys
      ({ st with fsys := mr.1 }, [(cb, mr.2)])

/-- Embeds Filesaver.prototype.add: like put, but the computed target is
first routed through tools.finalName. -/
def add (st : SaverState) (fname oldPath : Str) (sh : CallShape) :
    SaverState × List (Cb × Res) :=
  match checker st fname oldPath sh with
  | Sum.inr (cb, msg) => (st, [(cb, Res.err msg)])
  | Sum.inl (np, cb) =>
      let np2 := finalName st.fsys np
      let mr := move oldPath np2 st.fsys
      ({ st with fsys := mr.1 }, [(cb, mr.2)])

/-- One public operation of the instance, for stating state invariants. -/
inductive Op
  | opFolder (name p : Str) (cb : Bool)
  | opPut (fname oldPath : Str) (sh : CallShape)
  | opAdd (fname oldPath : Str) (sh : CallShape)

/-- State transition of one public operation. -/
def step (st : SaverState) : Op → SaverState
  | Op.opFolder n p c => (folder st n p c).1
  | Op.opPut f o sh => (put st f o sh).1
  | Op.opAdd f o sh => (add st f o sh).1

example : ("ab".data) = ['a', 'b'] := by decide

example : jsSplit '/' ("d/file".data) = ("d".data, [("file".data)]) := by decide

example : checkSafeName true ("d/file".data) = ("d/file.".data) := by decide

example : checkSafeName true ("d/a.b.c".data) = ("d/a.b,c".data) := by decide

example : checkSafeName true ("d/my file!.jpg".data) = ("d/my_file_.jpg".data) := by decide

example : lastSeg '/' ("/tmp/a.jpg".data) = ("a.jpg".data) := by decide

example : afterLast '/' ("/tmp/a.jpg".data) = ("a.jpg".data) := by decide

example : splitExt ("photo.jpg".data) = ("photo".data, some ("jpg".data)) := by decide

example : splitExt ("photo".data) = ("photo".data, none) := by decide

theorem lookupA_set {β : Type} (k : Str) (v : β) (l : List (Str × β)) :
    lookupA k (setA k v l) = some v := by
  simp [setA, lookupA]

theorem lookupA_some_mem {β : Type} {k : Str} {v : β} :
    ∀ {l : List (Str × β)}, lookupA k l = some v → k ∈ l.map Prod.fst := by
  intro l
  induction l with
  | nil => intro h; simp [lookupA] at h
  | cons a t ih =>
      obtain ⟨a1, a2⟩ := a
      intro h
      rw [lookupA] at h
      by_cases hk : k = a1
      · subst hk
        rw [List.map_cons]
        exact List.mem_cons_self _ _
      · rw [if_neg hk] at h
        rw [List.map_cons]
        exact List.mem_cons_of_mem _ (ih h)

theorem eraseA_subset {β : Type} {k : Str} {pr : Str × β} :
    ∀ {l : List (Str × β)}, pr ∈ eraseA k l → pr ∈ l := by
  intro l
  induction l with
  | nil => intro h; simp [eraseA] at h
  | cons a t ih =>
      obtain ⟨a1, a2⟩ := a
      intro h
      rw [eraseA] at h
      by_cases hk : k = a1
      · rw [if_pos hk] at h; exact List.mem_cons_of_mem _ (ih h)
      · rw [if_neg hk] at h
        rcases List.mem_cons.1 h with h1 | h2
        · exact h1 ▸ List.mem_cons_self _ _
        · exact List.mem_cons_of_mem _ (ih h2)

theorem jsSplit_no_sep {sep : Char} : ∀ {s : Str}, sep ∉ s → jsSplit sep s = (s, []) := by
  intro s
  induction s with
  | nil => intro _; rfl
  | cons c cs ih =>
      intro h
      have hc : ¬c = sep := fun he => h (he ▸ List.mem_cons_self _ _)
      have hcs : sep ∉ cs := fun hm => h (List.mem_cons_of_mem _ hm)
      simp [jsSplit, hc, ih hcs]

theorem jsSplit_mem_sep {sep : Char} : ∀ {s : Str}, sep ∈ s → (jsSplit sep s).2 ≠ [] := by
  intro s
  induction s with
  | nil => intro h; simp at h
  | cons c cs ih =>
      intro h
      by_cases hc : c = sep
      · simp [jsSplit, hc]
      · have hcs : sep ∈ cs := by
          rcases List.mem_cons.1 h with h1 | h2
          · exact absurd h1.symm hc
          · exact h2
        simp [jsSplit, hc]
        exact ih hcs

theorem getLastD_irrel : ∀ {t : List Str}, t ≠ [] → ∀ (d1 d2 : Str), getLastD t d1 = getLastD t d2 := by
  intro t
  induction t with
  | nil => intro h; exact absurd rfl h
  | cons a t2 _ => intro _ d1 d2; rfl

theorem afterLast_no_sep {sep : Char} : ∀ {s : Str}, sep ∉ s → afterLast sep s = s := by
  intro s
  induction s with
  | nil => intro _; rfl
  | cons c cs ih =>
      intro h
      have hc : ¬c = sep := fun he => h (he ▸ List.mem_cons_self _ _)
      have hcs : sep ∉ cs := fun hm => h (List.mem_cons_of_mem _ hm)
      simp [afterLast, hcs, hc]

theorem lastSeg_eq_afterLast (sep : Char) : ∀ (s : Str), lastSeg sep s = afterLast sep s := by
  intro s
  induction s with
  | nil => rfl
  | cons c cs ih =>
      by_cases hc : c = sep
      · have h1 : lastSeg sep (c :: cs) = lastSeg sep cs := by
          simp [lastSeg, jsSplit, hc]
          rfl
        rw [h1, ih]
        by_cases hm : sep ∈ cs
        · simp [afterLast, hm, hc]
        · simp [afterLast, hm, hc, afterLast_no_sep hm]
      · by_cases hm : sep ∈ cs
        · have ht : (jsSplit sep cs).2 ≠ [] := jsSplit_mem_sep hm
          have h1 : lastSeg sep (c :: cs) = lastSeg sep cs := by
            simp [lastSeg, jsSplit, hc]
            exact getLastD_irrel ht _ _
          rw [h1, ih]
          simp [afterLast, hm]
        · have hsp : jsSplit sep cs = (cs, []) := jsSplit_no_sep hm
          simp [lastSeg, jsSplit, hc, hsp, afterLast, hm, getLastD]

theorem safeChar_underscore (c : Char) (h : ¬(c.isAlphanum || c == '-' || c == '_') = true) :
    safeChar c = '_' := by
  rw [safeChar, if_neg h]

theorem safeChar_idem (c : Char) : safeChar (safeChar c) = safeChar c := by
  by_cases h : (c.isAlphanum || c == '-' || c == '_') = true
  · simp [safeChar, h]
  · rw [safeChar_underscore c h]
    decide

theorem safeChar_ne_slash (c : Char) : safeChar c ≠ '/' := by
  by_cases h : (c.isAlphanum || c == '-' || c == '_') = true
  · rw [safeChar, if_pos h]
    intro hc
    rw [hc] at h
    exact absurd h (by decide)
  · rw [safeChar, if_neg h]
    decide

theorem digitVal_digitChar : ∀ d ∈ List.range 10, (Nat.digitChar d).toNat - 48 = d := by decide

theorem map_digitChar_cancel :
    ∀ (l : List Nat), (∀ d ∈ l, d < 10) →
      (l.map Nat.digitChar).map (fun c => c.toNat - 48) = l := by
  intro l
  induction l with
  | nil => intro _; rfl
  | cons a t ih =>
      intro h
      have ha : a < 10 := h a (List.mem_cons_self _ _)
      have ht : ∀ d ∈ t, d < 10 := fun d hd => h d (List.mem_cons_of_mem _ hd)
      simp only [List.map_cons, List.map]
      rw [ih ht]
      have := digitVal_digitChar a (List.mem_range.2 ha)
      rw [this]

theorem natChars_inj {m n : Nat} (h : natChars m = natChars n) : m = n := by
  have hm : ∀ d ∈ (Nat.digits 10 m).reverse, d < 10 := by
    intro d hd
    exact Nat.digits_lt_base (by norm_num) (List.mem_reverse.1 hd)
  have hn : ∀ d ∈ (Nat.digits 10 n).reverse, d < 10 := by
    intro d hd
    exact Nat.digits_lt_base (by norm_num) (List.mem_reverse.1 hd)
  have h2 : (Nat.digits 10 m).reverse = (Nat.digits 10 n).reverse := by
    rw [← map_digitChar_cancel _ hm, ← map_digitChar_cancel _ hn]
    unfold natChars at h
    rw [h]
  have h3 : Nat.digits 10 m = Nat.digits 10 n := by
    have := congrArg List.reverse h2
    simpa using this
  calc m = Nat.ofDigits 10 (Nat.digits 10 m) := (Nat.ofDigits_digits 10 m).symm
    _ = Nat.ofDigits 10 (Nat.digits 10 n) := by rw [h3]
    _ = n := Nat.ofDigits_digits 10 n

theorem mkCand_inj (route : Str) {a b : Nat} (h : mkCand route a = mkCand route b) : a = b := by
  unfold mkCand at h
  rw [List.append_assoc, List.append_assoc] at h
  have h1 := List.append_cancel_left (List.append_cancel_left h)
  have h2 : natChars a ++ extSuffix (splitExt (beforeAfterLast '/' route).2).2
      = natChars b ++ extSuffix (splitExt (beforeAfterLast '/' route).2).2 := by
    simpa using h1
  exact natChars_inj (List.append_cancel_right h2)

theorem searchFree_spec {α : Type} [DecidableEq α] (ex : List α) (mk : Nat → α) :
    ∀ (f s : Nat), (∃ k, k < f ∧ mk (s + k) ∉ ex) →
      ∃ k, k < f ∧ searchFree ex mk s f = s + k ∧ mk (s + k) ∉ ex ∧
        ∀ j, j < k → mk (s + j) ∈ ex := by
  intro f
  induction f with
  | zero =>
      rintro s ⟨k, hk, _⟩
      omega
  | succ f ih =>
      rintro s ⟨k, hk, hfree⟩
      by_cases hs : mk s ∈ ex
      · have hk0 : k ≠ 0 := by
          rintro rfl
          rw [Nat.add_zero] at hfree
          exact hfree hs
        obtain ⟨k1, rfl⟩ : ∃ k1, k = k1 + 1 := ⟨k - 1, by omega⟩
        have hprev : ∃ k2, k2 < f ∧ mk (s + 1 + k2) ∉ ex := by
          refine ⟨k1, by omega, ?_⟩
          have : s + 1 + k1 = s + (k1 + 1) := by omega
          rw [this]
          exact hfree
        obtain ⟨k2, h1, h2, h3, h4⟩ := ih (s + 1) hprev
        refine ⟨k2 + 1, by omega, ?_, ?_, ?_⟩
        · rw [searchFree, if_pos hs, h2]
          omega
        · have : s + (k2 + 1) = s + 1 + k2 := by omega
          rw [this]
          exact h3
        · intro j hj
          match j with
          | 0 => simpa using hs
          | j1 + 1 =>
              have : s + (j1 + 1) = s + 1 + j1 := by omega
              rw [this]
              exact h4 j1 (by omega)
      · exact ⟨0, by omega, by rw [searchFree, if_neg hs, Nat.add_zero],
          by simpa using hs, by omega⟩

theorem exists_free {α : Type} [DecidableEq α] (ex : List α) (mk : Nat → α)
    (inj : ∀ a b, mk a = mk b → a = b) (s : Nat) :
    ∃ k, k < ex.length + 1 ∧ mk (s + k) ∉ ex := by
  by_contra hcon
  push_neg at hcon
  have hcard : (Finset.univ : Finset (Fin (ex.length + 1))).card ≤ ex.toFinset.card := by
    apply Finset.card_le_card_of_injOn (fun i => mk (s + i.val))
    · intro i _
      exact List.mem_toFinset.2 (hcon i.val i.isLt)
    · intro a _ b _ hab
      have := inj _ _ hab
      exact Fin.ext (by omega)
  rw [Finset.card_univ, Fintype.card_fin] at hcard
  have := List.toFinset_card_le ex
  omega

theorem existsSync_iff (fsx : FS) (p : Str) :
    existsSync fsx p = true ↔ p ∈ fsx.dirs ∨ p ∈ filesKeys fsx := by
  simp [existsSync, exList]

theorem move_dirs (o np : Str) (fsx : FS) : ((move o np fsx).1).dirs = fsx.dirs := by
  unfold move
  split <;> rfl

theorem put_state (st : SaverState) (f o : Str) (sh : CallShape) :
    (put st f o sh).1.folders = st.folders ∧ (put st f o sh).1.fsys.dirs = st.fsys.dirs := by
  unfold put
  split <;> simp [move_dirs]

theorem add_state (st : SaverState) (f o : Str) (sh : CallShape) :
    (add st f o sh).1.folders = st.folders ∧ (add st f o sh).1.fsys.dirs = st.fsys.dirs := by
  unfold add
  split <;> simp [move_dirs]

theorem mkdirp_dirs_sub (p : Str) (fsx : FS) : fsx.dirs ⊆ (mkdirp p fsx).dirs := by
  rw [mkdirp]
  exact fun x hx => List.mem_cons_of_mem _ hx

theorem initFolders_files :
    ∀ (fl : List (Str × Str)) (fsx : FS), (initFolders fl fsx).files = fsx.files := by
  intro fl
  induction fl with
  | nil => intro fsx; rfl
  | cons a t ih =>
      intro fsx
      rw [initFolders, ih]
      by_cases h : existsSync fsx a.2 = true <;> simp [h, mkdirp]

theorem initFolders_dirs_sub :
    ∀ (fl : List (Str × Str)) (fsx : FS), fsx.dirs ⊆ (initFolders fl fsx).dirs := by
  intro fl
  induction fl with
  | nil => intro fsx; exact fun x hx => hx
  | cons a t ih =>
      intro fsx
      rw [initFolders]
      intro x hx
      apply ih
      by_cases h : existsSync fsx a.2 = true
      · rw [if_pos h]; exact hx
      · rw [if_neg h]; exact mkdirp_dirs_sub _ _ hx

theorem initFolders_estab :
    ∀ (fl : List (Str × Str)) (fsx : FS),
      (∀ pr ∈ fl, pr.2 ∈ fsx.dirs ∨ pr.2 ∉ filesKeys fsx) →
      ∀ pr ∈ fl, pr.2 ∈ (initFolders fl fsx).dirs := by
  intro fl
  induction fl with
  | nil => intro fsx _ pr hpr; simp at hpr
  | cons a t ih =>
      intro fsx h pr hpr
      rw [initFolders]
      rcases List.mem_cons.1 hpr with h1 | h2
      · subst h1
        apply initFolders_dirs_sub
        by_cases hex : existsSync fsx pr.2 = true
        · rw [if_pos hex]
          rcases h pr (List.mem_cons_self _ _) with hd | hnf
          · exact hd
          · rcases (existsSync_iff fsx pr.2).1 hex with hd | hf
            · exact hd
            · exact absurd hf hnf
        · rw [if_neg hex, mkdirp]
          exact List.mem_cons_self _ _
      · apply ih
        · intro q hq
          rcases h q (List.mem_cons_of_mem _ hq) with hd | hnf
          · left
            by_cases hex : existsSync fsx a.2 = true
            · rw [if_pos hex]; exact hd
            · rw [if_neg hex]; exact mkdirp_dirs_sub _ _ hd
          · right
            by_cases hex : existsSync fsx a.2 = true
            · rw [if_pos hex]; exact hnf
            · rw [if_neg hex]
              simpa [filesKeys, mkdirp] using hnf
        · exact h2

/-- Invariant of claim C3: every registered alias maps to an existing
directory. -/
def DirInv (st : SaverState) : Prop := ∀ pr ∈ st.folders, pr.2 ∈ st.fsys.dirs

/-- Side condition forced by the counterexample to claim C3: a folder
registration is only guaranteed to establish its directory when the mapped
path is already a directory or has no entry at all (the existence check of
the code accepts a plain file and then skips creation). -/
def opOk (st : SaverState) : Op → Prop
  | Op.opFolder _ p _ => p ∈ st.fsys.dirs ∨ existsSync st.fsys p = false
  | Op.opPut _ _ _ => True
  | Op.opAdd _ _ _ => True

/-- C5: for all strings, the sanitizer is total (it is a function), its
result contains no path-separator character, and it is idempotent.
tools.safename is modelled from the specification, section 4.1, because
tools.js is not among the sources. -/
theorem c5_sanitize_total_separator_free_idempotent (s : Str) :
    '/' ∉ safename s ∧ safename (safename s) = safename s := by
  constructor
  · intro hmem
    rw [safename, List.mem_map] at hmem
    obtain ⟨c, _, hc⟩ := hmem
    exact safeChar_ne_slash c hc
  · rw [safename, safename, List.map_map]
    have hcomp : safeChar ∘ safeChar = safeChar := funext safeChar_idem
    rw [hcomp]

/-- Witness for C5 at a concrete string containing a separator, a space and
a bang. -/
theorem c5_witness :
    '/' ∉ safename ("a/b c!".data)
    ∧ safename (safename ("a/b c!".data)) = safename ("a/b c!".data) :=
  c5_sanitize_total_separator_free_idempotent ("a/b c!".data)

/-- C1: the collision resolution used by add returns the candidate path
unchanged when nothing exists there; otherwise it returns the first
directory/basename_N.extension with N counted up from 1 (the basename taken
verbatim, so an existing _N suffix is never parsed or collapsed — the
counter in mkCand is appended fresh), and the returned path never exists at
the moment of return.  tools.finalName is modelled from the specification,
section 4.3, because tools.js is not among the sources. -/
theorem c1_finalName_collision_resolution (fsx : FS) (route : Str) :
    (existsSync fsx route = false → finalName fsx route = route)
    ∧ (existsSync fsx route = true →
        ∃ n, 1 ≤ n ∧ finalName fsx route = mkCand route n
          ∧ existsSync fsx (mkCand route n) = false
          ∧ ∀ m, 1 ≤ m → m < n → existsSync fsx (mkCand route m) = true)
    ∧ existsSync fsx (finalName fsx route) = false := by
  by_cases hex : existsSync fsx route = true
  · obtain ⟨k, hk, heq, hfree, hmin⟩ :=
      searchFree_spec (exList fsx) (mkCand route) ((exList fsx).length + 1) 1
        (exists_free (exList fsx) (mkCand route) (fun a b h => mkCand_inj route h) 1)
    have hfn : finalName fsx route = mkCand route (1 + k) := by
      rw [finalName, if_pos hex, heq]
    have hnotex : existsSync fsx (mkCand route (1 + k)) = false := by
      simp only [existsSync, decide_eq_false_iff_not]
      exact hfree
    refine ⟨fun h => absurd hex (by simp [h]), fun _ => ⟨1 + k, by omega, hfn, hnotex, ?_⟩, ?_⟩
    · intro m h1 h2
      have hm : m = 1 + (m - 1) := by omega
      rw [hm]
      simp only [existsSync, decide_eq_true_eq]
      exact hmin (m - 1) (by omega)
    · rw [hfn]
      exact hnotex
  · have hex2 : existsSync fsx route = false := by
      cases h : existsSync fsx route
      · rfl
      · exact absurd h hex
    have hfn : finalName fsx route = route := by
      rw [finalName, if_neg hex]
    exact ⟨fun _ => hfn, fun h => absurd h hex, by rw [hfn]; exact hex2⟩

/-- Witness for C1: on an empty filesystem the candidate path is free and
returned unchanged. -/
theorem c1_witness :
    existsSync ⟨[], []⟩ ("a/b.c".data) = false
    ∧ finalName ⟨[], []⟩ ("a/b.c".data) = ("a/b.c".data) :=
  ⟨by decide, (c1_finalName_collision_resolution ⟨[], []⟩ ("a/b.c".data)).1 (by decide)⟩

/-- C3 counterexample: registering through the constructor an alias whose
path is occupied by a plain file stores the alias but creates no directory,
so the directory mapped to the alias does not exist when registration
completes, refuting the claimed invariant at this concrete input. -/
theorem c3_counterexample :
    lookupA ("a".data)
      (Filesaver [(("a".data), ("x".data))] false ⟨[], [(("x".data), 0)]⟩).folders
      = some ("x".data)
    ∧ ("x".data) ∉
      (Filesaver [(("a".data), ("x".data))] false ⟨[], [(("x".data), 0)]⟩).fsys.dirs := by
  decide

/-- C3 amended: when no plain file occupies the registered path (the path is
already a directory or has no entry), registration makes the directory
exist, and every operation preserves the directory invariant of the alias
table: put and add never touch directories or the alias table, and folder
creates the directory it registers under the same no-file-squatting
proviso.  The original claim fails only because the existence check of the
code accepts a plain file at the path and then skips creation. -/
theorem c3_alias_directory_invariant :
    (∀ (st : SaverState) (op : Op), DirInv st → opOk st op → DirInv (step st op))
    ∧ (∀ (fl : List (Str × Str)) (sn : Bool) (fsx : FS),
        (∀ pr ∈ fl, pr.2 ∈ fsx.dirs ∨ pr.2 ∉ filesKeys fsx) →
        DirInv (Filesaver fl sn fsx)) := by
  constructor
  · intro st op hinv hok
    match op with
    | Op.opPut f o sh =>
        intro pr hpr
        rw [step] at hpr ⊢
        rw [(put_state st f o sh).1] at hpr
        rw [(put_state st f o sh).2]
        exact hinv pr hpr
    | Op.opAdd f o sh =>
        intro pr hpr
        rw [step] at hpr ⊢
        rw [(add_state st f o sh).1] at hpr
        rw [(add_state st f o sh).2]
        exact hinv pr hpr
    | Op.opFolder n p c =>
        intro pr hpr
        rw [step] at hpr ⊢
        rw [opOk] at hok
        unfold folder at hpr ⊢
        simp only [setA] at hpr
        rcases List.mem_cons.1 hpr with h1 | h2
        · subst h1
          by_cases hex : existsSync st.fsys p = true
          · rcases hok with hd | hf
            · simpa [hex] using hd
            · rw [hf] at hex
              exact absurd hex (by decide)
          · simp [hex, mkdirp]
        · have hmem := eraseA_subset h2
          have hd := hinv pr hmem
          by_cases hex : existsSync st.fsys p = true
          · simpa [hex] using hd
          · simp only [if_neg hex]
            exact List.mem_cons_of_mem _ hd
  · intro fl sn fsx h pr hpr
    exact initFolders_estab fl fsx h pr hpr

/-- Witness for C3 at a concrete constructor call followed by a folder
registration step on a fresh path. -/
theorem c3_witness :
    DirInv (step (Filesaver [(("a".data), ("d".data))] false ⟨[], []⟩)
      (Op.opFolder ("b".data) ("e".data) true)) :=
  (c3_alias_directory_invariant).1 _ _
    ((c3_alias_directory_invariant).2 [(("a".data), ("d".data))] false ⟨[], []⟩ (by decide))
    (Or.inr (by decide))

theorem checker_ok (st : SaverState) (fname oldPath n dir : Str)
    (hf : fname ≠ []) (ho : oldPath ≠ []) (hex : existsSync st.fsys oldPath = true)
    (hn : n ≠ []) (hdir : lookupA fname st.folders = some dir) (hd : dir ≠ []) :
    checker st fname oldPath (CallShape.withNameCb n)
      = Sum.inl (checkSafeName st.safenames (pathResolve dir n), Cb.supplied) := by
  unfold checker
  simp only [shuffle]
  rw [if_neg hn, if_pos ⟨hf, ho, hex⟩, hdir]
  exact if_neg hd

/-- C4 counterexample: an alias registered through the folder operation with
the empty directory path is a registered alias (its lookup succeeds), yet
put on it with an existing source performs no move at all: the JavaScript
truthiness guard on this.folders[folder] treats the empty path as falsy and
answers 'invalid folder', refuting the claim that put moves the source for
every registered alias. -/
theorem c4_counterexample :
    lookupA ("img".data)
      ((folder ⟨[], false, ⟨[], [(("/tmp/s".data), 0)]⟩⟩ ("img".data) [] false).1).folders
      = some []
    ∧ put ((folder ⟨[], false, ⟨[], [(("/tmp/s".data), 0)]⟩⟩ ("img".data) [] false).1)
        ("img".data) ("/tmp/s".data) (CallShape.withNameCb ("a".data))
      = (((folder ⟨[], false, ⟨[], [(("/tmp/s".data), 0)]⟩⟩ ("img".data) [] false).1),
         [(Cb.supplied, Res.err invalidFolderMsg)]) := by
  decide

/-- C4 amended: for an alias registered to a truthy (non-empty) directory
path and an existing source, put moves the source to the computed target
unconditionally — the collision resolver is not consulted (the target is
exactly the checker result, independent of whether anything exists there),
and any file previously stored at the target path is replaced by the moved
file's content.  The truthiness proviso is forced by the counterexample: an
alias registered to the empty path is refused as an unknown folder. -/
theorem c4_put_moves_unconditionally (st : SaverState) (fname oldPath n dir tgt : Str) (c : Nat)
    (hf : fname ≠ []) (ho : oldPath ≠ []) (hn : n ≠ [])
    (hsrc : lookupA oldPath st.fsys.files = some c)
    (hdir : lookupA fname st.folders = some dir) (hd : dir ≠ [])
    (htgt : tgt = checkSafeName st.safenames (pathResolve dir n)) :
    put st fname oldPath (CallShape.withNameCb n) =
      ({ st with fsys := { st.fsys with files := setA tgt c (eraseA oldPath st.fsys.files) } },
        [(Cb.supplied, Res.ok ⟨lastSeg '/' tgt, tgt⟩)])
    ∧ lookupA tgt ((put st fname oldPath (CallShape.withNameCb n)).1.fsys.files) = some c := by
  have hex : existsSync st.fsys oldPath = true := by
    rw [existsSync_iff]
    exact Or.inr (lookupA_some_mem hsrc)
  have hch := checker_ok st fname oldPath n dir hf ho hex hn hdir hd
  rw [← htgt] at hch
  have hput : put st fname oldPath (CallShape.withNameCb n) =
      ({ st with fsys := { st.fsys with files := setA tgt c (eraseA oldPath st.fsys.files) } },
        [(Cb.supplied, Res.ok ⟨lastSeg '/' tgt, tgt⟩)]) := by
    unfold put
    rw [hch]
    unfold move
    rw [hsrc]
  refine ⟨hput, ?_⟩
  rw [hput]
  exact lookupA_set tgt c _

/-- Saver state used by the C4 witness: images alias registered, a file
already stored at the target path (content 3), and a pending source file
(content 7). -/
def stOverwrite : SaverState :=
  ⟨[(("images".data), ("./images".data))], false,
    ⟨[("./images".data)], [(("./images/a.jpg".data), 3), (("/tmp/b.jpg".data), 7)]⟩⟩

/-- Witness for C4: the second put over an occupied target succeeds and the
target now holds the moved file's content. -/
theorem c4_witness :
    lookupA ("./images/a.jpg".data)
      ((put stOverwrite ("images".data) ("/tmp/b.jpg".data)
        (CallShape.withNameCb ("a.jpg".data))).1.fsys.files) = some 7 :=
  (c4_put_moves_unconditionally stOverwrite ("images".data) ("/tmp/b.jpg".data) ("a.jpg".data)
    ("./images".data) ("./images/a.jpg".data) 7 (by decide) (by decide) (by decide) (by decide)
    (by decide) (by decide) (by decide)).2

/-- C6: with valid non-empty arguments and an existing source, put and add
on an unregistered alias fail through the callback with the code's
unknown-folder error value (the string 'invalid folder', the error kind the
specification names UnknownFolderError) and leave the state unchanged: no
move is performed. -/
theorem c6_unknown_alias (st : SaverState) (fname oldPath : Str) (sh : CallShape)
    (hf : fname ≠ []) (ho : oldPath ≠ []) (hex : existsSync st.fsys oldPath = true)
    (hun : lookupA fname st.folders = none) :
    put st fname oldPath sh = (st, [((shuffle oldPath sh).2, Res.err invalidFolderMsg)])
    ∧ add st fname oldPath sh = (st, [((shuffle oldPath sh).2, Res.err invalidFolderMsg)]) := by
  have hch : checker st fname oldPath sh
      = Sum.inr ((shuffle oldPath sh).2, invalidFolderMsg) := by
    unfold checker
    rw [if_pos ⟨hf, ho, hex⟩, hun]
  constructor
  · unfold put; rw [hch]
  · unfold add; rw [hch]

/-- Saver state with no registered alias and one existing source file. -/
def stNoAlias : SaverState := ⟨[], false, ⟨[], [(("/tmp/s".data), 0)]⟩⟩

/-- Witness for C6 at a concrete unregistered alias. -/
theorem c6_witness :
    put stNoAlias ("img".data) ("/tmp/s".data) CallShape.two
      = (stNoAlias, [((shuffle ("/tmp/s".data) CallShape.two).2, Res.err invalidFolderMsg)])
    ∧ add stNoAlias ("img".data) ("/tmp/s".data) CallShape.two
      = (stNoAlias, [((shuffle ("/tmp/s".data) CallShape.two).2, Res.err invalidFolderMsg)]) :=
  c6_unknown_alias stNoAlias ("img".data) ("/tmp/s".data) CallShape.two
    (by decide) (by decide) (by decide) (by decide)

/-- C7: when the alias key or the source path is empty, or the source does
not exist on the filesystem, put and add fail through the callback with the
code's invalid-argument error value (the string 'folder or origin not
valid', the error kind the specification names InvalidArgumentError) and
leave the state unchanged: no move is performed.  The non-string half of
the claim is outside this typed embedding, where both arguments are
strings by construction. -/
theorem c7_invalid_arguments (st : SaverState) (fname oldPath : Str) (sh : CallShape)
    (h : fname = [] ∨ oldPath = [] ∨ existsSync st.fsys oldPath = false) :
    put st fname oldPath sh = (st, [((shuffle oldPath sh).2, Res.err notValidMsg)])
    ∧ add st fname oldPath sh = (st, [((shuffle oldPath sh).2, Res.err notValidMsg)]) := by
  have hcond : ¬(fname ≠ [] ∧ oldPath ≠ [] ∧ existsSync st.fsys oldPath = true) := by
    rcases h with h | h | h
    · intro hc; exact hc.1 h
    · intro hc; exact hc.2.1 h
    · intro hc
      rw [hc.2.2] at h
      exact absurd h (by decide)
  have hch : checker st fname oldPath sh = Sum.inr ((shuffle oldPath sh).2, notValidMsg) := by
    unfold checker
    rw [if_neg hcond]
  constructor
  · unfold put; rw [hch]
  · unfold add; rw [hch]

/-- Witness for C7 at a concrete non-existing source path. -/
theorem c7_witness :
    put stNoAlias ("img".data) ("/tmp/missing".data) CallShape.two
      = (stNoAlias, [((shuffle ("/tmp/missing".data) CallShape.two).2, Res.err notValidMsg)])
    ∧ add stNoAlias ("img".data) ("/tmp/missing".data) CallShape.two
      = (stNoAlias, [((shuffle ("/tmp/missing".data) CallShape.two).2, Res.err notValidMsg)]) :=
  c7_invalid_arguments stNoAlias ("img".data) ("/tmp/missing".data) CallShape.two
    (Or.inr (Or.inr (by decide)))

/-- C8 counterexample: registering a folder with an empty directory path
does not fail — the alias mapping to the empty path is stored and the
callback fires normally; no InvalidPathError exists anywhere in the code. -/
theorem c8_counterexample :
    ((folder ⟨[], false, ⟨[], []⟩⟩ ("docs".data) [] true).1).folders
      = [(("docs".data), ([] : Str))]
    ∧ (folder ⟨[], false, ⟨[], []⟩⟩ ("docs".data) [] true).2 = true := by
  decide

/-- C8 amended: the folder operation performs no validation of the directory
path; called with the empty path on any state it still stores the alias
mapping (alias to empty path) and fires the callback exactly when one was
supplied. -/
theorem c8_empty_path_stored (st : SaverState) (name : Str) (cbSupplied : Bool) :
    lookupA name (((folder st name [] cbSupplied).1).folders) = some []
    ∧ (folder st name [] cbSupplied).2 = cbSupplied := by
  unfold folder
  exact ⟨lookupA_set name [] st.folders, rfl⟩

/-- C2: refuted by the code.  checkSafeName evaluates the JavaScript
expression [basename, ext].join('.') with ext an array, so a destination
name with no extension gains a trailing dot, and a name with several dots
has the dots of its extension part replaced by commas; the extension is not
preserved untouched as claimed. -/
theorem c2_extension_mangled :
    checkSafeName true ("d/file".data) = ("d/file.".data)
    ∧ checkSafeName true ("d/a.b.c".data) = ("d/a.b,c".data)
    ∧ checkSafeName true ("d/my file!.jpg".data) = ("d/my_file_.jpg".data) := by
  decide

/-- Saver state used by the C9 and C10 witnesses: the images alias is
registered and one source file exists. -/
def stImages : SaverState :=
  ⟨[(("images".data), ("./images".data))], false,
    ⟨[("./images".data)], [(("/tmp/a.jpg".data), 5)]⟩⟩

/-- C9: refuted by the code.  put with a falsy destination name (here the
empty string) and a callback supplied in fourth position routes through the
branch that substitutes the internal no-op callback, so the single callback
invocation of the call goes to the no-op and the supplied callback fires
zero times, not exactly once as claimed. -/
theorem c9_supplied_callback_dropped :
    (put stImages ("images".data) ("/tmp/a.jpg".data) (CallShape.withNameCb [])).2
      = [(Cb.noop, Res.ok ⟨("a.jpg".data), ("./images/a.jpg".data)⟩)] := by
  decide

theorem move_ok_filename {o np : Str} {fsx : FS} {pl : Payload}
    (h : (move o np fsx).2 = Res.ok pl) : pl.filename = lastSeg '/' pl.filepath := by
  unfold move at h
  rcases hl : lookupA o fsx.files with _ | c
  · rw [hl] at h
    exact absurd h (by simp)
  · rw [hl] at h
    have h2 : Payload.mk (lastSeg '/' np) np = pl := by
      simpa using h
    rw [← h2]

/-- C10: whenever put or add delivers a success payload to a callback, the
filename field is the substring of the filepath field after its last slash
separator. -/
theorem c10_filename_matches_filepath (st : SaverState) (fname oldPath : Str) (sh : CallShape)
    (cb : Cb) (pl : Payload)
    (h : (cb, Res.ok pl) ∈ (put st fname oldPath sh).2
      ∨ (cb, Res.ok pl) ∈ (add st fname oldPath sh).2) :
    pl.filename = afterLast '/' pl.filepath := by
  rw [← lastSeg_eq_afterLast]
  rcases h with h | h
  · unfold put at h
    rcases hch : checker st fname oldPath sh with ⟨np, cb2⟩ | ⟨cb2, msg⟩
    · rw [hch] at h
      simp only [List.mem_singleton, Prod.mk.injEq] at h
      exact move_ok_filename h.2.symm
    · rw [hch] at h
      simp at h
  · unfold add at h
    rcases hch : checker st fname oldPath sh with ⟨np, cb2⟩ | ⟨cb2, msg⟩
    · rw [hch] at h
      simp only [List.mem_singleton, Prod.mk.injEq] at h
      exact move_ok_filename h.2.symm
    · rw [hch] at h
      simp at h

/-- Witness for C10 at a concrete successful put. -/
theorem c10_witness :
    (Payload.mk ("a.jpg".data) ("./images/a.jpg".data)).filename
      = afterLast '/' (Payload.mk ("a.jpg".data) ("./images/a.jpg".data)).filepath :=
  c10_filename_matches_filepath stImages ("images".data) ("/tmp/a.jpg".data)
    (CallShape.withNameCb []) Cb.noop (Payload.mk ("a.jpg".data) ("./images/a.jpg".data))
    (Or.inl (by decide))
